import Mathlib

/-!
Verification of the gesture-stabilization core of
`src/components/GestureController.tsx` (the `runDetection` loop).

The stabilization state consists of the refs `posHistory`, `ratioHistory`,
`isCurrentlyOpen` and `missedFrames` (source lines 25-28).  One scheduled
tick with a ready frame runs `runDetection`'s body (lines 60-146); it reads
the result of `model.estimateHands` and takes one of three branches:

* at least one prediction: the observed branch, lines 63-127;
* zero predictions: the miss branch, lines 128-143;
* the call throws: the `catch` branch, line 144-146, which does nothing.

Numbers the source computes with JavaScript doubles are modelled as exact
rationals (`ℚ`).  The only irrational quantity, the raw openness ratio of
lines 89-105 (a quotient of sums of square roots), is modelled separately
over `ℝ` in the `Openness` section below; the state-transition layer takes
the per-tick ratio sample as an input of the observed tick, together with
the wrist pixel coordinates and the video dimensions from which lines
72-73 derive the raw normalized position.

The throttling of lines 50-56 (`lastDetectionTime`) is modelled in the
`Throttle` section.
-/

namespace Gesture

/-- The gesture signal passed to the `onGesture` callback (source line 7):
`{isOpen, position: {x, y}, isDetected}`. -/
structure Signal where
  isOpen : Bool
  posX : ℚ
  posY : ℚ
  isDetected : Bool
deriving DecidableEq, Repr

/-- The mutable stabilization state of the controller: the refs
`posHistory` (line 26), `ratioHistory` (line 25), `isCurrentlyOpen`
(line 27) and `missedFrames` (line 28). -/
structure FilterState where
  posHistory : List (ℚ × ℚ)
  ratioHistory : List ℚ
  isCurrentlyOpen : Bool
  missedFrames : ℕ
deriving DecidableEq, Repr

/-- What one processed tick presents to the body of `runDetection`:
either an observation (at least one prediction; the observed branch needs
the wrist pixel coordinates, the video dimensions, and the raw openness
ratio of line 105), or no prediction, or a failure of the
`model.estimateHands` call itself. -/
inductive Tick where
  | detected (wristX wristY videoWidth videoHeight ratioSample : ℚ)
  | miss
  | failure
deriving DecidableEq, Repr

/-- `history.push(x)` followed by `if (history.length > cap) history.shift()`:
the buffer discipline applied to `posHistory` with `cap = 8` (lines 75-76)
and to `ratioHistory` with `cap = 5` (lines 108-109). -/
def pushTrim (cap : ℕ) (xs : List α) (x : α) : List α :=
  let ys := xs ++ [x]
  if ys.length > cap then ys.tail else ys

/-- Line 110 (and the reduce of line 78 per coordinate): the arithmetic
mean `history.reduce((a,b) => a+b, 0) / history.length`. -/
def listAvg (xs : List ℚ) : ℚ :=
  xs.foldl (fun a b => a + b) 0 / xs.length

/-- Lines 78-81: the averaged position, summing with `reduce` over the
buffer and dividing each coordinate by `count = posHistory.length`. -/
def avgOf (h : List (ℚ × ℚ)) : ℚ × ℚ :=
  let acc := h.foldl (fun acc curr => (acc.1 + curr.1, acc.2 + curr.2)) ((0 : ℚ), (0 : ℚ))
  (acc.1 / h.length, acc.2 / h.length)

/-- Line 72: `rawX = -1 * ((wrist[0] / video.videoWidth) * 2 - 1)`. -/
def rawX (wx vw : ℚ) : ℚ := -1 * ((wx / vw) * 2 - 1)

/-- Line 73: `rawY = -1 * ((wrist[1] / video.videoHeight) * 2 - 1)`. -/
def rawY (wy vh : ℚ) : ℚ := -1 * ((wy / vh) * 2 - 1)

/-- Lines 113-117, the hysteresis state lock: open on `smoothedRatio > 1.6`
when closed, close on `smoothedRatio < 1.2` when open, otherwise keep the
previous state. -/
def hysteresisNext (isOpen : Bool) (smoothedRatio : ℚ) : Bool :=
  if isOpen = false ∧ smoothedRatio > 1.6 then true
  else if isOpen = true ∧ smoothedRatio < 1.2 then false
  else isOpen

/-- The observed branch, lines 63-127: reset `missedFrames` to 0, push the
raw normalized wrist position (lines 72-76), average it (lines 78-81),
push the raw ratio and average it (lines 108-110), apply the hysteresis of
lines 113-117, and emit `{isOpen, position, isDetected: true}` (line 126). -/
def detectedStep (s : FilterState) (wx wy vw vh r : ℚ) : FilterState × Signal :=
  let posHistory := pushTrim 8 s.posHistory (rawX wx vw, rawY wy vh)
  let avgPos := avgOf posHistory
  let ratioHistory := pushTrim 5 s.ratioHistory r
  let opened := hysteresisNext s.isCurrentlyOpen (listAvg ratioHistory)
  (⟨posHistory, ratioHistory, opened, 0⟩,
   ⟨opened, avgPos.1, avgPos.2, true⟩)

/-- The signal of line 140: `{isOpen: false, position: {x:0, y:0},
isDetected: false}`. -/
def lossSignal : Signal := ⟨false, 0, 0, false⟩

/-- The miss branch, lines 128-143: increment `missedFrames`; when the
counter exceeds 5, reset `isCurrentlyOpen`, clear both buffers and emit
`lossSignal`; otherwise change nothing else and emit nothing. -/
def missStep (s : FilterState) : FilterState × Option Signal :=
  let m := s.missedFrames + 1
  if m > 5 then
    (⟨[], [], false, m⟩, some lossSignal)
  else
    (⟨s.posHistory, s.ratioHistory, s.isCurrentlyOpen, m⟩, none)

/-- One processed tick of `runDetection` (lines 60-146): the new state and
the signal emitted through the `onGesture` callback, if any.  A failing
`estimateHands` call is swallowed by the `catch` of line 144 with no state
change and no emission. -/
def runDetectionStep (s : FilterState) : Tick → FilterState × Option Signal
  | Tick.detected wx wy vw vh r =>
      let p := detectedStep s wx wy vw vh r
      (p.1, some p.2)
  | Tick.miss => missStep s
  | Tick.failure => (s, none)

/-- The initial state: empty buffers, `isCurrentlyOpen = false`,
`missedFrames = 0` (lines 25-28). -/
def initState : FilterState := ⟨[], [], false, 0⟩

/-- The state after a sequence of processed ticks. -/
def runTicks : FilterState → List Tick → FilterState
  | s, [] => s
  | s, t :: ts => runTicks (runDetectionStep s t).1 ts

/-- The signals emitted over a sequence of processed ticks, in order. -/
def runEmits : FilterState → List Tick → List Signal
  | _, [] => []
  | s, t :: ts => (runDetectionStep s t).2.toList ++ runEmits (runDetectionStep s t).1 ts

/-! ## Openness-ratio geometry (lines 85-105), over `ℝ`

The raw ratio of line 105 is a quotient of sums of Euclidean distances, so
it is modelled over the real numbers.  An observation is the `landmarks`
array of the first prediction: 21 points, used through their first two
coordinates only. -/

/-- Lines 89-91: `getDist`, the planar Euclidean distance between two
landmark points. -/
noncomputable def getDist (p1 p2 : ℝ × ℝ) : ℝ :=
  Real.sqrt ((p1.1 - p2.1) ^ 2 + (p1.2 - p2.2) ^ 2)

/-- Line 86: the fingertip landmark indices `[8, 12, 16, 20]`. -/
def tips : List (Fin 21) := [8, 12, 16, 20]

/-- Line 87: the MCP-joint landmark indices `[5, 9, 13, 17]`. -/
def bases : List (Fin 21) := [5, 9, 13, 17]

/-- Lines 93-99, the `totalBaseDist` accumulator: the sum over the four
fingers of the distance from the wrist (landmark 0) to the base joint. -/
noncomputable def totalBaseDist (lm : Fin 21 → ℝ × ℝ) : ℝ :=
  bases.foldl (fun acc i => acc + getDist (lm 0) (lm i)) 0

/-- Lines 93-99, the `totalTipDist` accumulator: the sum over the four
fingers of the distance from the wrist (landmark 0) to the tip. -/
noncomputable def totalTipDist (lm : Fin 21 → ℝ × ℝ) : ℝ :=
  tips.foldl (fun acc i => acc + getDist (lm 0) (lm i)) 0

/-- Line 101: `avgBaseDist = totalBaseDist / 4`. -/
noncomputable def avgBaseDist (lm : Fin 21 → ℝ × ℝ) : ℝ := totalBaseDist lm / 4

/-- Line 102: `avgTipDist = totalTipDist / 4`. -/
noncomputable def avgTipDist (lm : Fin 21 → ℝ × ℝ) : ℝ := totalTipDist lm / 4

/-- The denominator of line 105: `avgBaseDist || 1`, which is `1` when
`avgBaseDist` is zero and `avgBaseDist` otherwise. -/
noncomputable def ratioDenom (lm : Fin 21 → ℝ × ℝ) : ℝ :=
  if avgBaseDist lm = 0 then 1 else avgBaseDist lm

/-- Line 105: `rawRatio = avgTipDist / (avgBaseDist || 1)`. -/
noncomputable def rawRatio (lm : Fin 21 → ℝ × ℝ) : ℝ :=
  avgTipDist lm / ratioDenom lm

/-! ## Frame-scheduler throttle (lines 50-56)

`lastDetectionTime` gates the work of a tick by wall-clock time: a
notification less than 60 ms after the last detection reschedules without
doing work; otherwise `lastDetectionTime` is set to `now` and the
collaborator is invoked.  Times are modelled as integers (milliseconds). -/

/-- Lines 50-56: given `lastDetectionTime` and `now`, the new
`lastDetectionTime` and whether this notification proceeds to invoke the
detector (`false` = the early return of lines 52-55). -/
def throttleStep (lastTime now : ℤ) : ℤ × Bool :=
  if now - lastTime < 60 then (lastTime, false) else (now, true)

/-- The wall-clock times at which the detector is actually invoked, over a
sequence of host frame-notification times, threading `lastDetectionTime`. -/
def invocationTimes : ℤ → List ℤ → List ℤ
  | _, [] => []
  | lastTime, t :: ts =>
      let p := throttleStep lastTime t
      (if p.2 then [t] else []) ++ invocationTimes p.1 ts

/-- `n` successive `pushTrim` insertions of the same sample `c`: the buffer
evolution under a constant input. -/
def pushN (cap : ℕ) (c : α) : ℕ → List α → List α
  | 0, xs => xs
  | n + 1, xs => pushN cap c n (pushTrim cap xs c)

/-- The invariant of the two history buffers: neither exceeds its
capacity (8 positions, 5 ratios). -/
def StateInv (s : FilterState) : Prop :=
  s.posHistory.length ≤ 8 ∧ s.ratioHistory.length ≤ 5

/-- A sequence of ticks each of which is an observation whose smoothed
ratio (after its own insertion into the ratio buffer) lies in the dead
zone `[1.2, 1.6]`, as evaluated along the run from `s`. -/
def DeadZoneRun : FilterState → List Tick → Prop
  | _, [] => True
  | s, t :: ts =>
      (∃ wx wy vw vh r, t = Tick.detected wx wy vw vh r ∧
        1.2 ≤ listAvg (pushTrim 5 s.ratioHistory r) ∧
        listAvg (pushTrim 5 s.ratioHistory r) ≤ 1.6) ∧
      DeadZoneRun (runDetectionStep s t).1 ts

/-! ## Lemmas about the buffer discipline -/

theorem pushTrim_eq_drop {α : Type*} {cap : ℕ} (xs : List α) (x : α) (h : xs.length ≤ cap) :
    pushTrim cap xs x = (xs ++ [x]).drop (xs.length + 1 - cap) := by
  simp only [pushTrim, List.length_append, List.length_cons, List.length_nil, Nat.zero_add]
  split
  · have h1 : xs.length + 1 - cap = 1 := by omega
    rw [h1, List.drop_one]
  · have h1 : xs.length + 1 - cap = 0 := by omega
    rw [h1, List.drop_zero]

theorem pushTrim_length {α : Type*} {cap : ℕ} (xs : List α) (x : α) (h : xs.length ≤ cap) :
    (pushTrim cap xs x).length = min (xs.length + 1) cap := by
  rw [pushTrim_eq_drop xs x h]
  simp only [List.length_drop, List.length_append, List.length_cons, List.length_nil]
  omega

theorem pushN_eq_drop {α : Type*} {cap : ℕ} (c : α) (n : ℕ) :
    ∀ xs : List α, xs.length ≤ cap →
      pushN cap c n xs = (xs ++ List.replicate n c).drop (xs.length + n - cap) := by
  induction n with
  | zero =>
      intro xs h
      simp [pushN, Nat.sub_eq_zero_of_le h]
  | succ n ih =>
      intro xs h
      have hlen : (pushTrim cap xs c).length ≤ cap := by
        rw [pushTrim_length xs c h]; omega
      rw [pushN, ih _ hlen, pushTrim_eq_drop xs c h]
      rw [← List.drop_append_of_le_length
        (by simp only [List.length_append, List.length_cons, List.length_nil]; omega),
        List.drop_drop]
      rw [List.append_assoc, List.singleton_append, ← List.replicate_succ]
      congr 1
      simp only [List.length_drop, List.length_append, List.length_cons, List.length_nil]
      omega

theorem pushN_const_fill {α : Type*} {cap : ℕ} (c : α) (n : ℕ) (xs : List α)
    (hn : cap ≤ n) (h : xs.length ≤ cap) :
    pushN cap c n xs = List.replicate cap c := by
  rw [pushN_eq_drop c n xs h, show xs.length + n - cap = xs.length + (n - cap) by omega]
  rw [List.drop_append, List.drop_replicate]
  congr 1
  omega

theorem pushTrim_full {α : Type*} {cap : ℕ} (xs : List α) (x : α)
    (h : xs.length = cap) (hc : 0 < cap) :
    pushTrim cap xs x = xs.tail ++ [x] := by
  have hne : xs ≠ [] := by
    intro e
    rw [e] at h
    simp at h
    omega
  simp only [pushTrim, List.length_append, List.length_cons, List.length_nil, Nat.zero_add, h]
  rw [if_pos (by omega), List.tail_append_singleton_of_ne_nil hne]

/-! ## Lemmas about the moving averages -/

theorem foldl_add_replicate (k : ℕ) (c : ℚ) :
    ∀ a : ℚ, (List.replicate k c).foldl (fun a b => a + b) a = a + k * c := by
  induction k with
  | zero => intro a; simp
  | succ n ih =>
      intro a
      rw [List.replicate_succ, List.foldl_cons, ih]
      push_cast
      ring

theorem listAvg_replicate (k : ℕ) (c : ℚ) (hk : k ≠ 0) :
    listAvg (List.replicate k c) = c := by
  rw [listAvg, foldl_add_replicate, List.length_replicate]
  rw [zero_add, mul_div_cancel_left₀ c (by exact_mod_cast hk)]

theorem foldl_pair_replicate (k : ℕ) (a b : ℚ) :
    ∀ p : ℚ × ℚ, (List.replicate k (a, b)).foldl
        (fun acc curr => (acc.1 + curr.1, acc.2 + curr.2)) p = (p.1 + k * a, p.2 + k * b) := by
  induction k with
  | zero => intro p; simp
  | succ n ih =>
      intro p
      rw [List.replicate_succ, List.foldl_cons, ih]
      refine Prod.ext ?_ ?_ <;> push_cast <;> ring

theorem avgOf_replicate (k : ℕ) (a b : ℚ) (hk : k ≠ 0) :
    avgOf (List.replicate k (a, b)) = (a, b) := by
  rw [avgOf, foldl_pair_replicate, List.length_replicate]
  refine Prod.ext ?_ ?_ <;>
    simp only [zero_add] <;>
    rw [mul_div_cancel_left₀ _ (show (k : ℚ) ≠ 0 by exact_mod_cast hk)]

/-! ## Lemmas about tick sequences -/

theorem runTicks_append (s : FilterState) (l1 l2 : List Tick) :
    runTicks s (l1 ++ l2) = runTicks (runTicks s l1) l2 := by
  induction l1 generalizing s with
  | nil => rfl
  | cons t ts ih => rw [List.cons_append, runTicks, runTicks, ih]

theorem missStep_le (s : FilterState) (h : s.missedFrames + 1 ≤ 5) :
    runDetectionStep s Tick.miss =
      (⟨s.posHistory, s.ratioHistory, s.isCurrentlyOpen, s.missedFrames + 1⟩, none) := by
  rw [runDetectionStep, missStep]
  rw [if_neg (by omega)]

theorem missStep_gt (s : FilterState) (h : s.missedFrames + 1 > 5) :
    runDetectionStep s Tick.miss =
      (⟨[], [], false, s.missedFrames + 1⟩, some lossSignal) := by
  rw [runDetectionStep, missStep]
  rw [if_pos (by omega)]

theorem runTicks_miss_le (n : ℕ) :
    ∀ s : FilterState, s.missedFrames + n ≤ 5 →
      runTicks s (List.replicate n Tick.miss) =
        ⟨s.posHistory, s.ratioHistory, s.isCurrentlyOpen, s.missedFrames + n⟩ := by
  induction n with
  | zero => intro s _; rfl
  | succ n ih =>
      intro s h
      rw [List.replicate_succ, runTicks, missStep_le s (by omega)]
      rw [ih _ (by simp only []; omega)]
      simp only []
      congr 1
      omega

theorem runTicks_miss_counter (n : ℕ) :
    ∀ s : FilterState,
      (runTicks s (List.replicate n Tick.miss)).missedFrames = s.missedFrames + n := by
  induction n with
  | zero => intro s; simp [runTicks]
  | succ n ih =>
      intro s
      rw [List.replicate_succ, runTicks]
      by_cases h : s.missedFrames + 1 > 5
      · rw [missStep_gt s h, ih]
        simp only []
        omega
      · rw [missStep_le s (by omega), ih]
        simp only []
        omega

theorem runEmits_miss (n : ℕ) :
    ∀ s : FilterState,
      runEmits s (List.replicate n Tick.miss) =
        List.replicate (n - (5 - s.missedFrames)) lossSignal := by
  induction n with
  | zero => intro s; simp [runEmits]
  | succ n ih =>
      intro s
      rw [List.replicate_succ, runEmits]
      by_cases h : s.missedFrames + 1 > 5
      · rw [missStep_gt s h, ih]
        simp only [Option.toList_some, List.singleton_append]
        rw [show n - (5 - (s.missedFrames + 1)) = n by omega, ← List.replicate_succ]
        congr 1
        omega
      · rw [missStep_le s (by omega), ih]
        simp only [Option.toList_none, List.nil_append]
        congr 1
        omega

theorem detectedStep_state (s : FilterState) (wx wy vw vh r : ℚ) :
    (runDetectionStep s (Tick.detected wx wy vw vh r)).1 =
      ⟨pushTrim 8 s.posHistory (rawX wx vw, rawY wy vh),
       pushTrim 5 s.ratioHistory r,
       hysteresisNext s.isCurrentlyOpen (listAvg (pushTrim 5 s.ratioHistory r)),
       0⟩ := rfl

theorem runTicks_detected_buffers (wx wy vw vh r : ℚ) (n : ℕ) :
    ∀ s : FilterState,
      (runTicks s (List.replicate n (Tick.detected wx wy vw vh r))).posHistory
          = pushN 8 (rawX wx vw, rawY wy vh) n s.posHistory ∧
      (runTicks s (List.replicate n (Tick.detected wx wy vw vh r))).ratioHistory
          = pushN 5 r n s.ratioHistory := by
  induction n with
  | zero => intro s; exact ⟨rfl, rfl⟩
  | succ n ih =>
      intro s
      rw [List.replicate_succ, runTicks, detectedStep_state]
      exact ih _

/-! ## The buffer-capacity invariant -/

theorem stateInv_init : StateInv initState := by
  constructor <;> simp [initState]

theorem stateInv_step (s : FilterState) (t : Tick) (h : StateInv s) :
    StateInv (runDetectionStep s t).1 := by
  obtain ⟨h1, h2⟩ := h
  cases t with
  | detected wx wy vw vh r =>
      rw [detectedStep_state]
      constructor
      · simp only []
        rw [pushTrim_length _ _ h1]
        omega
      · simp only []
        rw [pushTrim_length _ _ h2]
        omega
  | miss =>
      by_cases hm : s.missedFrames + 1 > 5
      · rw [missStep_gt s hm]
        constructor <;> simp
      · rw [missStep_le s (by omega)]
        exact ⟨h1, h2⟩
  | failure => exact ⟨h1, h2⟩

theorem stateInv_runTicks (l : List Tick) :
    ∀ s : FilterState, StateInv s → StateInv (runTicks s l) := by
  induction l with
  | nil => intro s h; exact h
  | cons t ts ih => intro s h; exact ih _ (stateInv_step s t h)

/-! ## The hysteresis gate -/

theorem hysteresisNext_of_closed (sr : ℚ) :
    hysteresisNext false sr = true ↔ 1.6 < sr := by
  rw [hysteresisNext]
  by_cases h : (1.6 : ℚ) < sr
  · rw [if_pos ⟨rfl, h⟩]
    simp [h]
  · rw [if_neg (by simp [h]), if_neg (by simp)]
    simp [h]

theorem hysteresisNext_of_open (sr : ℚ) :
    hysteresisNext true sr = false ↔ sr < 1.2 := by
  rw [hysteresisNext]
  rw [if_neg (by simp)]
  by_cases h : sr < (1.2 : ℚ)
  · rw [if_pos ⟨rfl, h⟩]
    simp [h]
  · rw [if_neg (by simp [h])]
    simp [h]

theorem hysteresisNext_dead (b : Bool) (sr : ℚ) (h1 : 1.2 ≤ sr) (h2 : sr ≤ 1.6) :
    hysteresisNext b sr = b := by
  rw [hysteresisNext]
  rw [if_neg (by rintro ⟨-, hgt⟩; exact absurd hgt (not_lt.mpr h2))]
  rw [if_neg (by rintro ⟨-, hlt⟩; exact absurd hlt (not_lt.mpr h1))]

theorem deadZoneRun_isOpen (l : List Tick) :
    ∀ s : FilterState, DeadZoneRun s l →
      (runTicks s l).isCurrentlyOpen = s.isCurrentlyOpen := by
  induction l with
  | nil => intro s _; rfl
  | cons t ts ih =>
      intro s h
      obtain ⟨⟨wx, wy, vw, vh, r, ht, hlo, hhi⟩, hrest⟩ := h
      subst ht
      rw [runTicks, ih _ hrest, detectedStep_state]
      exact hysteresisNext_dead _ _ hlo hhi

/-! ## The throttle -/

theorem invocationTimes_cons_skip (l t : ℤ) (ts : List ℤ) (h : t - l < 60) :
    invocationTimes l (t :: ts) = invocationTimes l ts := by
  simp [invocationTimes, throttleStep, h]

theorem invocationTimes_cons_fire (l t : ℤ) (ts : List ℤ) (h : ¬t - l < 60) :
    invocationTimes l (t :: ts) = t :: invocationTimes t ts := by
  simp [invocationTimes, throttleStep, h]

theorem invocationTimes_ge (ts : List ℤ) :
    ∀ lastTime : ℤ, ∀ x ∈ invocationTimes lastTime ts, lastTime + 60 ≤ x := by
  induction ts with
  | nil => intro l x hx; simp [invocationTimes] at hx
  | cons t ts ih =>
      intro l x hx
      by_cases h : t - l < 60
      · rw [invocationTimes_cons_skip l t ts h] at hx
        exact ih l x hx
      · rw [invocationTimes_cons_fire l t ts h, List.mem_cons] at hx
        rcases hx with rfl | hx
        · omega
        · have := ih t x hx
          omega

theorem invocationTimes_chain (ts : List ℤ) :
    ∀ lastTime : ℤ,
      List.Chain' (fun a b => a + 60 ≤ b) (invocationTimes lastTime ts) := by
  induction ts with
  | nil => intro l; simp [invocationTimes]
  | cons t ts ih =>
      intro l
      by_cases h : t - l < 60
      · rw [invocationTimes_cons_skip l t ts h]
        exact ih l
      · rw [invocationTimes_cons_fire l t ts h, List.chain'_cons']
        refine ⟨?_, ih t⟩
        intro y hy
        exact invocationTimes_ge ts t y (List.mem_of_mem_head? hy)

/-! ## The openness-ratio geometry -/

theorem getDist_nonneg (p1 p2 : ℝ × ℝ) : 0 ≤ getDist p1 p2 :=
  Real.sqrt_nonneg _

theorem totalBaseDist_nonneg (lm : Fin 21 → ℝ × ℝ) : 0 ≤ totalBaseDist lm := by
  simp only [totalBaseDist, bases, List.foldl_cons, List.foldl_nil, zero_add]
  have h1 := getDist_nonneg (lm 0) (lm 5)
  have h2 := getDist_nonneg (lm 0) (lm 9)
  have h3 := getDist_nonneg (lm 0) (lm 13)
  have h4 := getDist_nonneg (lm 0) (lm 17)
  linarith

theorem totalTipDist_nonneg (lm : Fin 21 → ℝ × ℝ) : 0 ≤ totalTipDist lm := by
  simp only [totalTipDist, tips, List.foldl_cons, List.foldl_nil, zero_add]
  have h1 := getDist_nonneg (lm 0) (lm 8)
  have h2 := getDist_nonneg (lm 0) (lm 12)
  have h3 := getDist_nonneg (lm 0) (lm 16)
  have h4 := getDist_nonneg (lm 0) (lm 20)
  linarith

theorem runTicks_single (s : FilterState) (t : Tick) :
    runTicks s [t] = (runDetectionStep s t).1 := rfl

/-! ## The claims -/

/-- C5: if the `estimateHands` call fails on a tick, the failure is
absorbed by the `catch` of line 144 and the tick changes nothing: the miss
counter is not incremented, the history buffers and the hysteresis state
are unchanged, and no gesture signal is emitted. -/
theorem failure_tick_inert (s : FilterState) :
    runDetectionStep s Tick.failure = (s, none) := rfl

/-- C8: for every observation (21 landmarks with real coordinates) the
openness-ratio computation divides by a nonzero denominator — `1` is
substituted when the average base-joint distance is `0` (the `|| 1` of
line 105) — and the resulting ratio is non-negative. -/
theorem openness_ratio_safe (lm : Fin 21 → ℝ × ℝ) :
    ratioDenom lm ≠ 0 ∧ 0 ≤ rawRatio lm := by
  have hb : 0 ≤ avgBaseDist lm :=
    div_nonneg (totalBaseDist_nonneg lm) (by norm_num)
  have ht : 0 ≤ avgTipDist lm :=
    div_nonneg (totalTipDist_nonneg lm) (by norm_num)
  have hd : 0 < ratioDenom lm := by
    rw [ratioDenom]
    split
    · norm_num
    · rename_i hz
      exact lt_of_le_of_ne hb (Ne.symm hz)
  exact ⟨ne_of_gt hd, div_nonneg ht (le_of_lt hd)⟩

/-- C9: the frame-scheduler throttle (lines 50-56): on a notification less
than 60 ms after the last detection time the tick does no detection work
and leaves `lastDetectionTime` unchanged; at or above 60 ms,
`lastDetectionTime` is set to the notification time and the detector is
invoked; consequently, over any sequence of host notifications, any two
detector invocations are at least 60 ms apart — the collaborator is never
invoked twice within a 60 ms wall-clock window. -/
theorem throttle_no_double_invocation :
    (∀ lastTime now : ℤ, now - lastTime < 60 →
      throttleStep lastTime now = (lastTime, false)) ∧
    (∀ lastTime now : ℤ, ¬now - lastTime < 60 →
      throttleStep lastTime now = (now, true)) ∧
    (∀ (lastTime : ℤ) (ts : List ℤ),
      (invocationTimes lastTime ts).Pairwise (fun a b => a + 60 ≤ b)) := by
  refine ⟨?_, ?_, ?_⟩
  · intro l t h
    rw [throttleStep, if_pos h]
  · intro l t h
    rw [throttleStep, if_neg h]
  · intro l ts
    haveI : IsTrans ℤ (fun a b : ℤ => a + 60 ≤ b) :=
      ⟨fun a b c hab hbc => by omega⟩
    exact List.chain'_iff_pairwise.mp (invocationTimes_chain ts l)

/-- Witness for C9 at a concrete input: at 30 ms after a detection the tick
is skipped with `lastDetectionTime` unchanged. -/
theorem throttle_no_double_invocation_witness :
    (30 : ℤ) - 0 < 60 ∧ throttleStep 0 30 = (0, false) :=
  ⟨by norm_num, throttle_no_double_invocation.1 0 30 (by norm_num)⟩

/-- C10: on every tick that emits a signal with `isDetected = false`, the
reset has already been applied to the state delivered alongside the
emission: the hysteresis state is `false` and both history buffers are
empty (the source resets at lines 134-136 before firing the callback at
line 140), and the emitted signal is exactly `lossSignal`. -/
theorem loss_emission_reset (s : FilterState) (t : Tick) (sig : Signal)
    (h : (runDetectionStep s t).2 = some sig) (hd : sig.isDetected = false) :
    (runDetectionStep s t).1.isCurrentlyOpen = false ∧
    (runDetectionStep s t).1.posHistory = [] ∧
    (runDetectionStep s t).1.ratioHistory = [] ∧
    sig = lossSignal := by
  cases t with
  | detected wx wy vw vh r =>
      exfalso
      have hx : (detectedStep s wx wy vw vh r).2 = sig := Option.some.inj h
      rw [← hx] at hd
      simp [detectedStep] at hd
  | miss =>
      by_cases hm : s.missedFrames + 1 > 5
      · rw [missStep_gt s hm] at h ⊢
        obtain rfl : lossSignal = sig := Option.some.inj h
        exact ⟨rfl, rfl, rfl, rfl⟩
      · rw [missStep_le s (by omega)] at h
        exact absurd h (by simp)
  | failure => exact absurd h (by simp [runDetectionStep])

/-- Witness for C10 at a concrete input: a 6th consecutive miss from a
state that was open with a non-empty ratio buffer. -/
theorem loss_emission_reset_witness :
    (runDetectionStep ⟨[(1, 1)], [2], true, 5⟩ Tick.miss).2 = some lossSignal ∧
    lossSignal.isDetected = false ∧
    ((runDetectionStep ⟨[(1, 1)], [2], true, 5⟩ Tick.miss).1.isCurrentlyOpen = false ∧
     (runDetectionStep ⟨[(1, 1)], [2], true, 5⟩ Tick.miss).1.posHistory = [] ∧
     (runDetectionStep ⟨[(1, 1)], [2], true, 5⟩ Tick.miss).1.ratioHistory = [] ∧
     lossSignal = lossSignal) :=
  ⟨rfl, rfl, loss_emission_reset ⟨[(1, 1)], [2], true, 5⟩ Tick.miss lossSignal rfl rfl⟩

/-- C1 counterexample: from the initial state, a run of 7 consecutive
missed ticks emits the `{isOpen: false, position: (0,0), isDetected:
false}` signal twice — at the 6th miss and again at the 7th — so it is not
emitted exactly once per run of misses. -/
theorem loss_emitted_again_counterexample :
    runEmits Gesture.initState (List.replicate 7 Tick.miss) =
      [⟨false, 0, 0, false⟩, ⟨false, 0, 0, false⟩] := by
  decide

/-- C1 amended: in a run of `n ≥ 6` consecutive missed ticks starting from
any state with a zeroed miss counter (the initial state, or the state left
by any observed tick), nothing is emitted on the first 5 misses, and the
loss signal is emitted at the 6th miss and again on every subsequent
missed tick of the run — `n - 5` emissions in all, not exactly one. -/
theorem loss_emitted_every_miss_past_threshold (s : FilterState) (n : ℕ)
    (h0 : s.missedFrames = 0) (hn : 6 ≤ n) :
    runEmits s (List.replicate 5 Tick.miss) = [] ∧
    runEmits s (List.replicate n Tick.miss) =
      List.replicate (n - 5) lossSignal ∧
    1 ≤ n - 5 ∧
    lossSignal = ⟨false, 0, 0, false⟩ := by
  refine ⟨?_, ?_, by omega, rfl⟩
  · rw [runEmits_miss, h0]
    rfl
  · rw [runEmits_miss, h0]

/-- Witness for the amended C1 at `n = 7`: two emissions of the loss
signal. -/
theorem loss_emitted_every_miss_past_threshold_witness :
    (initState.missedFrames = 0 ∧ 6 ≤ 7 ∧
      runEmits initState (List.replicate 5 Tick.miss) = [] ∧
      runEmits initState (List.replicate 7 Tick.miss) =
        List.replicate (7 - 5) lossSignal ∧
      1 ≤ 7 - 5 ∧
      lossSignal = ⟨false, 0, 0, false⟩) :=
  ⟨rfl, by norm_num,
    loss_emitted_every_miss_past_threshold initState 7 rfl (by norm_num)⟩

/-- C3: from any state with a zeroed miss counter, a run of exactly 5
consecutive missed ticks leaves both history buffers and the hysteresis
state unchanged, and a following observed tick produces exactly the state
it would have produced with no misses at all; a run reaching a 6th
consecutive miss clears the position and ratio buffers and resets the
hysteresis state to Closed. -/
theorem debounce_tolerance (s : FilterState) (h : s.missedFrames = 0)
    (wx wy vw vh r : ℚ) :
    (runTicks s (List.replicate 5 Tick.miss)).posHistory = s.posHistory ∧
    (runTicks s (List.replicate 5 Tick.miss)).ratioHistory = s.ratioHistory ∧
    (runTicks s (List.replicate 5 Tick.miss)).isCurrentlyOpen = s.isCurrentlyOpen ∧
    runTicks s (List.replicate 5 Tick.miss ++ [Tick.detected wx wy vw vh r]) =
      runTicks s [Tick.detected wx wy vw vh r] ∧
    (runTicks s (List.replicate 6 Tick.miss)).posHistory = [] ∧
    (runTicks s (List.replicate 6 Tick.miss)).ratioHistory = [] ∧
    (runTicks s (List.replicate 6 Tick.miss)).isCurrentlyOpen = false := by
  have h5 : runTicks s (List.replicate 5 Tick.miss) =
      ⟨s.posHistory, s.ratioHistory, s.isCurrentlyOpen, 5⟩ := by
    rw [runTicks_miss_le 5 s (by omega), h]
  have h6 : runTicks s (List.replicate 6 Tick.miss) = ⟨[], [], false, 6⟩ := by
    rw [show (6 : ℕ) = 5 + 1 from rfl, List.replicate_add, runTicks_append, h5]
    rw [show List.replicate 1 Tick.miss = [Tick.miss] from rfl, runTicks_single]
    rw [missStep_gt _ (by norm_num)]
  refine ⟨by rw [h5], by rw [h5], by rw [h5], ?_, by rw [h6], by rw [h6], by rw [h6]⟩
  rw [runTicks_append, h5, runTicks_single, runTicks_single]
  rw [detectedStep_state, detectedStep_state]

/-- Witness for C3 from the initial state at a concrete observation. -/
theorem debounce_tolerance_witness :
    initState.missedFrames = 0 ∧
    (runTicks initState (List.replicate 5 Tick.miss)).ratioHistory =
      initState.ratioHistory ∧
    runTicks initState (List.replicate 5 Tick.miss ++ [Tick.detected 0 0 1 1 2]) =
      runTicks initState [Tick.detected 0 0 1 1 2] ∧
    (runTicks initState (List.replicate 6 Tick.miss)).isCurrentlyOpen = false :=
  have hmain := debounce_tolerance initState rfl 0 0 1 1 2
  ⟨rfl, hmain.2.1, hmain.2.2.2.1, hmain.2.2.2.2.2.2⟩

/-- C4 counterexample: after the 6 consecutive misses on which the debounce
threshold triggers, the miss counter holds 6 — it has not been reset — and
a 7th miss raises it to 7: it keeps growing across further misses. -/
theorem missCounter_not_reset_counterexample :
    (runTicks Gesture.initState (List.replicate 6 Tick.miss)).missedFrames = 6 ∧
    (runTicks Gesture.initState (List.replicate 6 Tick.miss)).missedFrames ≠ 0 ∧
    (runTicks Gesture.initState (List.replicate 7 Tick.miss)).missedFrames = 7 := by
  decide

/-- C4 amended: the miss counter is set to 0 on every tick with an
observation, but it is NOT reset when the debounce threshold triggers:
every missed tick — the confirmed-loss ticks included — increments it by
1, so after `n` consecutive misses from a zeroed counter it equals `n`,
growing without bound. -/
theorem missCounter_reset_only_on_detection (s : FilterState)
    (wx wy vw vh r : ℚ) (n : ℕ) (h : s.missedFrames = 0) :
    (runDetectionStep s (Tick.detected wx wy vw vh r)).1.missedFrames = 0 ∧
    (∀ s' : FilterState,
      (runDetectionStep s' Tick.miss).1.missedFrames = s'.missedFrames + 1) ∧
    (runTicks s (List.replicate n Tick.miss)).missedFrames = n := by
  refine ⟨rfl, ?_, ?_⟩
  · intro s'
    by_cases hm : s'.missedFrames + 1 > 5
    · rw [missStep_gt s' hm]
    · rw [missStep_le s' (by omega)]
  · rw [runTicks_miss_counter, h, Nat.zero_add]

/-- Witness for the amended C4 at the initial state and `n = 9`. -/
theorem missCounter_reset_only_on_detection_witness :
    initState.missedFrames = 0 ∧
    (runDetectionStep initState (Tick.detected 0 0 1 1 2)).1.missedFrames = 0 ∧
    (runTicks initState (List.replicate 9 Tick.miss)).missedFrames = 9 :=
  have hmain := missCounter_reset_only_on_detection initState 0 0 1 1 2 9 rfl
  ⟨rfl, hmain.1, hmain.2.2⟩

theorem detectedStep_isOpen (s : FilterState) (wx wy vw vh r : ℚ) :
    (runDetectionStep s (Tick.detected wx wy vw vh r)).1.isCurrentlyOpen
      = hysteresisNext s.isCurrentlyOpen (listAvg (pushTrim 5 s.ratioHistory r)) := rfl

/-- C2: the hysteresis gate starts Closed (`isOpen = false`); on each tick
with an observation it transitions Closed to Open iff the smoothed ratio
is strictly greater than 1.6, Open to Closed iff the smoothed ratio is
strictly less than 1.2, and otherwise keeps its state; hence over any run
of observed ticks whose smoothed ratios stay within `[1.2, 1.6]`, `isOpen`
never changes from its prior value. -/
theorem hysteresis_gate_spec :
    initState.isCurrentlyOpen = false ∧
    (∀ (s : FilterState) (wx wy vw vh r : ℚ),
      (s.isCurrentlyOpen = false →
        ((runDetectionStep s (Tick.detected wx wy vw vh r)).1.isCurrentlyOpen = true ↔
          1.6 < listAvg (pushTrim 5 s.ratioHistory r))) ∧
      (s.isCurrentlyOpen = true →
        ((runDetectionStep s (Tick.detected wx wy vw vh r)).1.isCurrentlyOpen = false ↔
          listAvg (pushTrim 5 s.ratioHistory r) < 1.2)) ∧
      (1.2 ≤ listAvg (pushTrim 5 s.ratioHistory r) →
        listAvg (pushTrim 5 s.ratioHistory r) ≤ 1.6 →
        (runDetectionStep s (Tick.detected wx wy vw vh r)).1.isCurrentlyOpen =
          s.isCurrentlyOpen)) ∧
    (∀ (s : FilterState) (l : List Tick), DeadZoneRun s l →
      (runTicks s l).isCurrentlyOpen = s.isCurrentlyOpen) := by
  refine ⟨rfl, ?_, ?_⟩
  · intro s wx wy vw vh r
    refine ⟨?_, ?_, ?_⟩
    · intro hc
      rw [detectedStep_isOpen, hc]
      exact hysteresisNext_of_closed _
    · intro ho
      rw [detectedStep_isOpen, ho]
      exact hysteresisNext_of_open _
    · intro hlo hhi
      rw [detectedStep_isOpen]
      exact hysteresisNext_dead _ _ hlo hhi
  · intro s l hdz
    exact deadZoneRun_isOpen l s hdz

/-- Witness for C2: a two-tick dead-zone run (smoothed ratios 3/2 and 7/5)
from the initial state leaves the gate Closed. -/
theorem hysteresis_gate_spec_witness :
    DeadZoneRun initState
        [Tick.detected 0 0 1 1 (3 / 2), Tick.detected 0 0 1 1 (13 / 10)] ∧
    (runTicks initState
        [Tick.detected 0 0 1 1 (3 / 2), Tick.detected 0 0 1 1 (13 / 10)]).isCurrentlyOpen
      = initState.isCurrentlyOpen := by
  have hdz : DeadZoneRun initState
      [Tick.detected 0 0 1 1 (3 / 2), Tick.detected 0 0 1 1 (13 / 10)] := by
    refine ⟨⟨0, 0, 1, 1, 3 / 2, rfl, ?_, ?_⟩, ⟨0, 0, 1, 1, 13 / 10, rfl, ?_, ?_⟩, trivial⟩ <;>
      norm_num [initState, runDetectionStep, detectedStep, pushTrim, listAvg,
        hysteresisNext, rawX, rawY, avgOf]
  exact ⟨hdz, hysteresis_gate_spec.2.2 _ _ hdz⟩

/-- C6: every state reachable from the initial state holds at most 8
position samples and at most 5 ratio samples; a tick of any kind preserves
these bounds; and an insertion into a full buffer evicts exactly the
oldest (front) entry, FIFO fashion. -/
theorem buffer_capacity_invariant :
    (∀ l : List Tick, StateInv (runTicks initState l)) ∧
    (∀ (s : FilterState) (t : Tick), StateInv s → StateInv (runDetectionStep s t).1) ∧
    (∀ (xs : List (ℚ × ℚ)) (p : ℚ × ℚ), xs.length = 8 →
      pushTrim 8 xs p = xs.tail ++ [p]) ∧
    (∀ (xs : List ℚ) (x : ℚ), xs.length = 5 → pushTrim 5 xs x = xs.tail ++ [x]) := by
  refine ⟨?_, stateInv_step, ?_, ?_⟩
  · intro l
    exact stateInv_runTicks l initState stateInv_init
  · intro xs p hx
    exact pushTrim_full xs p hx (by norm_num)
  · intro xs x hx
    exact pushTrim_full xs x hx (by norm_num)

/-- Witness for C6: concrete full buffers evict their front entry, and one
miss from the initial state keeps the bounds. -/
theorem buffer_capacity_invariant_witness :
    StateInv initState ∧
    StateInv (runDetectionStep initState Tick.miss).1 ∧
    (([(0, 0), (1, 0), (2, 0), (3, 0), (4, 0), (5, 0), (6, 0), (7, 0)] :
        List (ℚ × ℚ)).length = 8) ∧
    pushTrim 8
        ([(0, 0), (1, 0), (2, 0), (3, 0), (4, 0), (5, 0), (6, 0), (7, 0)] :
          List (ℚ × ℚ)) (8, 0) =
      [(1, 0), (2, 0), (3, 0), (4, 0), (5, 0), (6, 0), (7, 0), (8, 0)] ∧
    (([(1 : ℚ), 2, 3, 4, 5]).length = 5) ∧
    pushTrim 5 [(1 : ℚ), 2, 3, 4, 5] 6 = [(2 : ℚ), 3, 4, 5, 6] := by
  refine ⟨stateInv_init,
    buffer_capacity_invariant.2.1 initState Tick.miss stateInv_init, rfl, ?_, rfl, ?_⟩
  · rw [buffer_capacity_invariant.2.2.1
      ([(0, 0), (1, 0), (2, 0), (3, 0), (4, 0), (5, 0), (6, 0), (7, 0)] : List (ℚ × ℚ))
      (8, 0) rfl]
    exact rfl
  · rw [buffer_capacity_invariant.2.2.2 [(1 : ℚ), 2, 3, 4, 5] 6 rfl]
    exact rfl

/-- C7: feeding the same observation (hence a constant raw normalized
position and a constant raw ratio) from any state within buffer capacity:
after at least 8 consecutive observed ticks the position buffer holds 8
copies of the raw position and its arithmetic mean equals it, and after at
least 5 such ticks the ratio buffer holds 5 copies of the raw ratio and
its arithmetic mean equals it. -/
theorem moving_average_convergence (s : FilterState) (wx wy vw vh r : ℚ)
    (hs : StateInv s) :
    (∀ n : ℕ, 8 ≤ n →
      (runTicks s (List.replicate n (Tick.detected wx wy vw vh r))).posHistory =
          List.replicate 8 (rawX wx vw, rawY wy vh) ∧
      avgOf (runTicks s (List.replicate n (Tick.detected wx wy vw vh r))).posHistory =
          (rawX wx vw, rawY wy vh)) ∧
    (∀ n : ℕ, 5 ≤ n →
      (runTicks s (List.replicate n (Tick.detected wx wy vw vh r))).ratioHistory =
          List.replicate 5 r ∧
      listAvg (runTicks s (List.replicate n (Tick.detected wx wy vw vh r))).ratioHistory
          = r) := by
  obtain ⟨h1, h2⟩ := hs
  constructor
  · intro n hn
    have hfill : (runTicks s (List.replicate n (Tick.detected wx wy vw vh r))).posHistory =
        List.replicate 8 (rawX wx vw, rawY wy vh) := by
      rw [(runTicks_detected_buffers wx wy vw vh r n s).1]
      exact pushN_const_fill _ n _ hn h1
    refine ⟨hfill, ?_⟩
    rw [hfill]
    exact avgOf_replicate 8 _ _ (by norm_num)
  · intro n hn
    have hfill : (runTicks s (List.replicate n (Tick.detected wx wy vw vh r))).ratioHistory =
        List.replicate 5 r := by
      rw [(runTicks_detected_buffers wx wy vw vh r n s).2]
      exact pushN_const_fill _ n _ hn h2
    refine ⟨hfill, ?_⟩
    rw [hfill]
    exact listAvg_replicate 5 r (by norm_num)

/-- Witness for C7 from the initial state: 8 constant observations fill
the position buffer with the constant, 5 fill the ratio buffer. -/
theorem moving_average_convergence_witness :
    StateInv initState ∧
    (runTicks initState (List.replicate 8 (Tick.detected 0 0 1 1 2))).posHistory =
      List.replicate 8 (rawX 0 1, rawY 0 1) ∧
    listAvg (runTicks initState (List.replicate 5 (Tick.detected 0 0 1 1 2))).ratioHistory
      = 2 :=
  have hmain := moving_average_convergence initState 0 0 1 1 2 stateInv_init
  ⟨stateInv_init, (hmain.1 8 (by norm_num)).1, (hmain.2 5 (by norm_num)).2⟩

end Gesture
